import Mathlib

/-
  Verification of the HebrewFamilyTree core: GEDCOM relationship graph,
  shortest distance / path queries, and the relationship classifier.

  Shallow embedding of:
    - src/gedcom_graph.py       (build_graph, distance_and_path)
    - src/calculate_distance.py (build_family_graph, calculate_distances, find_path)
    - src/main.py               (get_relationship, the path-rendering loop of build_issue_body)
-/

namespace HFT

/-- A GEDCOM sub-element (a level-1 line below a record): its tag (NAME, SEX,
FAMC, FAMS, HUSB, WIFE, CHIL, ...) and its value. -/
structure SubElem where
  tag : String
  value : String
deriving DecidableEq

/-- A GEDCOM root record (a level-0 line): pointer (e.g. "@I1@"), tag
(INDI or FAM), and its sub-elements in file order.  This is the shape the
python-gedcom parser hands to the repository code. -/
structure Elem where
  pointer : String
  tag : String
  children : List SubElem
deriving DecidableEq

/-- Python truthiness of an optional string: `None` and `""` are falsy.
The source guards several fields with bare `if husb:`-style tests. -/
def truthy : Option String → Bool
  | none => false
  | some s => decide (s ≠ "")

/-- Whitespace set of Python's `str.strip()` (default argument). -/
def pyWs (c : Char) : Bool :=
  decide (c = ' ' ∨ c = '\t' ∨ c = '\n' ∨ c = '\r' ∨ c = '\x0b' ∨ c = '\x0c')

/-- Embeds Python `s.strip()`: remove leading and trailing whitespace. -/
def pyStrip (s : String) : String :=
  ⟨((s.toList.dropWhile pyWs).reverse.dropWhile pyWs).reverse⟩

/-- Embeds Python `s.replace("/", "")`: drop every slash. -/
def stripSlashes (s : String) : String :=
  ⟨s.toList.filter (fun c => decide (c ≠ '/'))⟩

/-- Embeds python-gedcom `Parser.get_element_dictionary`: a dict from pointer
to record, over the records that carry a (nonempty) pointer; a later record
with the same pointer silently overwrites an earlier one. -/
def get_element_dictionary (recs : List Elem) (ptr : String) : Option Elem :=
  if ptr = "" then none
  else recs.reverse.find? (fun e => decide (e.pointer = ptr))

/-- Embeds `find_sub_element` of src/main.py get_relationship: the first
sub-element with the given tag. -/
def find_sub_element (e : Elem) (t : String) : Option SubElem :=
  e.children.find? (fun c => decide (c.tag = t))

/-- Embeds `get_husband_and_wife_ids` of src/main.py get_relationship: scan
all sub-elements; the last HUSB and last WIFE value win (`None` if absent). -/
def get_husband_and_wife_ids (family : Elem) : Option String × Option String :=
  family.children.foldl
    (fun hw c =>
      if c.tag = "HUSB" then (some c.value, hw.2)
      else if c.tag = "WIFE" then (hw.1, some c.value)
      else hw)
    (none, none)

/-- Embeds python-gedcom `IndividualElement.get_gender`: the value of the last
SEX sub-element, `""` when the gender is unrecorded. -/
def get_gender (e : Elem) : String :=
  e.children.foldl (fun g c => if c.tag = "SEX" then c.value else g) ""

/-- Embeds python-gedcom `Parser.get_families`: the FAM records named by the
FAMS sub-elements of an individual, keeping only values that resolve in the
element dictionary to a family record. -/
def get_families (recs : List Elem) (p : Elem) : List Elem :=
  p.children.filterMap (fun c =>
    if c.tag = "FAMS" then
      match get_element_dictionary recs c.value with
      | some f => if f.tag = "FAM" then some f else none
      | none => none
    else none)

/-- Modelled from the spec: the repository's `localization` module
(`get_translation`), imported by src/main.py, is not under src/.  Per the
spec the relationship labels are the gendered pairs husband-of / wife-of,
father-of / mother-of, son-of / daughter-of, and the fallback relative; the
model returns one fixed deterministic label per key, independent of the
requested language, and returns other keys unchanged. -/
def get_translation (lang key : String) : String :=
  if key = "husband_of" then "husband-of"
  else if key = "wife_of" then "wife-of"
  else if key = "father_of" then "father-of"
  else if key = "mother_of" then "mother-of"
  else if key = "son_of" then "son-of"
  else if key = "daughter_of" then "daughter-of"
  else if key = "relative" then "relative"
  else key

/-- Embeds the per-family condition of Check 1 (spouses) in src/main.py
get_relationship lines 74-77: both spouse ids present and truthy, and
(p1, p2) is the (husband, wife) pair in either order. -/
def spouse_match (p1 p2 : Elem) (family : Elem) : Bool :=
  let hw := get_husband_and_wife_ids family
  truthy hw.1 && truthy hw.2 &&
    ((decide (p1.pointer = hw.1.getD "") && decide (p2.pointer = hw.2.getD "")) ||
     (decide (p1.pointer = hw.2.getD "") && decide (p2.pointer = hw.1.getD "")))

/-- Embeds Check 1 of get_relationship (src/main.py lines 72-81): some family
of p1 (via its FAMS links) has (p1, p2) as its spouse pair. -/
def spouse_cond (recs : List Elem) (p1 p2 : Elem) : Bool :=
  (get_families recs p1).any (spouse_match p1 p2)

/-- Embeds the condition of Check 2 of get_relationship (src/main.py lines
83-95): p2's first FAMC resolves to a record whose last HUSB or last WIFE is a
truthy value equal to p1's pointer. -/
def parent_cond (recs : List Elem) (p1 p2 : Elem) : Bool :=
  match find_sub_element p2 "FAMC" with
  | some famc =>
    match get_element_dictionary recs famc.value with
    | some fam =>
      let hw := get_husband_and_wife_ids fam
      (truthy hw.1 && decide (p1.pointer = hw.1.getD "")) ||
        (truthy hw.2 && decide (p1.pointer = hw.2.getD ""))
    | none => false
  | none => false

/-- Embeds the label choice of Check 2 (src/main.py lines 92-95): father-of
when the husband test matched (it is tested first), else mother-of.  Only
meaningful when `parent_cond` holds; the relative fallback in the other
branches keeps the function total. -/
def parent_label (recs : List Elem) (p1 p2 : Elem) (lang : String) : String :=
  match find_sub_element p2 "FAMC" with
  | some famc =>
    match get_element_dictionary recs famc.value with
    | some fam =>
      let hw := get_husband_and_wife_ids fam
      if truthy hw.1 && decide (p1.pointer = hw.1.getD "") then
        get_translation lang "father_of"
      else get_translation lang "mother_of"
    | none => get_translation lang "relative"
  | none => get_translation lang "relative"

/-- Embeds the condition of Check 3 of get_relationship (src/main.py lines
97-107), which is literally the condition of Check 2 with the two persons
swapped: p1's first FAMC resolves to a record whose husband or wife is p2. -/
def child_cond (recs : List Elem) (p1 p2 : Elem) : Bool :=
  parent_cond recs p2 p1

/-- Embeds `get_relationship` of src/main.py lines 28-113 (identical copy in
src/family_tree_notifier/issue_generator.py).  `none` models the uncaught
NotAnActualIndividualError that python-gedcom `get_families` raises when the
first pointer resolves to a non-individual record; a pointer absent from the
element dictionary is a KeyError, caught and mapped to
"unknown/non-individual".  The checks run in source order: spouse, then
p1-parent-of-p2, then p1-child-of-p2, then the relative fallback; husband/son
versus wife/daughter is decided by p1's gender being exactly "M". -/
def get_relationship (recs : List Elem) (p1_id p2_id : String) (lang : String) :
    Option String :=
  match get_element_dictionary recs p1_id, get_element_dictionary recs p2_id with
  | some p1, some p2 =>
    if p1.tag = "INDI" then
      some
        (if spouse_cond recs p1 p2 then
          if get_gender p1 = "M" then get_translation lang "husband_of"
          else get_translation lang "wife_of"
        else if parent_cond recs p1 p2 then parent_label recs p1 p2 lang
        else if child_cond recs p1 p2 then
          if get_gender p1 = "M" then get_translation lang "son_of"
          else get_translation lang "daughter_of"
        else get_translation lang "relative")
    else none
  | _, _ => some "unknown/non-individual"

/-- An undirected simple graph in the style of `networkx.Graph`: a node list
and an edge list; adjacency ignores edge orientation. -/
structure Graph (α : Type) where
  nodes : List α
  edges : List (α × α)
deriving DecidableEq

variable {α : Type} [DecidableEq α]

/-- Adjacency of the undirected graph: the pair occurs in the edge list in
either orientation. -/
def Graph.adj (g : Graph α) (x y : α) : Prop :=
  (x, y) ∈ g.edges ∨ (y, x) ∈ g.edges

instance (g : Graph α) (x y : α) : Decidable (g.adj x y) :=
  inferInstanceAs (Decidable (_ ∨ _))

/-- Boolean adjacency test. -/
def Graph.adjB (g : Graph α) (x y : α) : Bool :=
  decide (g.adj x y)

/-- Neighbour list of a node: the graph's nodes adjacent to it, in node-list
order (the stable iteration order the spec asks implementations to fix). -/
def Graph.nbrs (g : Graph α) (x : α) : List α :=
  g.nodes.filter (fun y => g.adjB x y)

/-- Embeds `networkx.Graph.add_node`: adding an existing node is a no-op. -/
def Graph.addNode (g : Graph α) (x : α) : Graph α :=
  if x ∈ g.nodes then g else { g with nodes := g.nodes ++ [x] }

/-- Embeds `networkx.Graph.add_edge`: both endpoints are added as nodes if
absent, and a duplicate edge (in either orientation) collapses. -/
def Graph.addEdge (g : Graph α) (x y : α) : Graph α :=
  if ((g.addNode x).addNode y).adjB x y then (g.addNode x).addNode y
  else { (g.addNode x).addNode y with edges := ((g.addNode x).addNode y).edges ++ [(x, y)] }

/-- Embeds the NAME extraction of src/gedcom_graph.py build_graph lines 36-40:
value of the first NAME sub-element with slashes removed and stripped, else
"Unknown". -/
def indi_name (e : Elem) : String :=
  match e.children.find? (fun c => decide (c.tag = "NAME")) with
  | some c => pyStrip (stripSlashes c.value)
  | none => "Unknown"

/-- Embeds the HUSB/WIFE/CHIL scan of src/gedcom_graph.py build_graph lines
46-56: last HUSB and last WIFE win, children accumulate in order. -/
def fam_husb_wife_children (fam : Elem) : Option String × Option String × List String :=
  fam.children.foldl
    (fun acc c =>
      if c.tag = "HUSB" then (some c.value, acc.2.1, acc.2.2)
      else if c.tag = "WIFE" then (acc.1, some c.value, acc.2.2)
      else if c.tag = "CHIL" then (acc.1, acc.2.1, acc.2.2 ++ [c.value])
      else acc)
    (none, none, [])

/-- Embeds the edge insertion for one FAM record (src/gedcom_graph.py
build_graph lines 57-64): a spouse edge when both husband and wife are truthy,
then parent-child edges from each truthy parent (husband first) to every
child.  No membership test against the individuals map is made. -/
def add_fam_edges (g : Graph String) (fam : Elem) : Graph String :=
  let hwc := fam_husb_wife_children fam
  let g1 := if truthy hwc.1 && truthy hwc.2.1 then
      g.addEdge (hwc.1.getD "") (hwc.2.1.getD "") else g
  let g2 := if truthy hwc.1 then
      hwc.2.2.foldl (fun h c => h.addEdge (hwc.1.getD "") c) g1 else g1
  if truthy hwc.2.1 then
    hwc.2.2.foldl (fun h c => h.addEdge (hwc.2.1.getD "") c) g2 else g2

/-- Embeds `build_graph` of src/gedcom_graph.py lines 7-65: one node per INDI
record, then the family edges; returns the graph together with the
pointer-to-name association (python dict, so a later INDI with the same
pointer overwrites the earlier name). -/
def build_graph (recs : List Elem) : Graph String × List (String × String) :=
  let g0 : Graph String :=
    (recs.filter (fun e => decide (e.tag = "INDI"))).foldl
      (fun g e => g.addNode e.pointer) ⟨[], []⟩
  let g1 := (recs.filter (fun e => decide (e.tag = "FAM"))).foldl add_fam_edges g0
  (g1, (recs.filter (fun e => decide (e.tag = "INDI"))).map
        (fun e => (e.pointer, indi_name e)))

/-- Python dict lookup on an association list built by repeated assignment:
the last binding of a key wins. -/
def dict_get (m : List (String × String)) (k : String) : Option String :=
  (m.reverse.find? (fun p => decide (p.1 = k))).map (fun p => p.2)

/-- Python `dict.get(k, d)`. -/
def dict_getD (m : List (String × String)) (k d : String) : String :=
  (dict_get m k).getD d

/-- Reversed walks of a fixed length from `a`: a list in `rwalks g a n` is a
length-(n+1) sequence of nodes read from the far end back to `a`, each
consecutive pair adjacent, extended in neighbour-list order.  This is the
level-by-level breadth-first enumeration underlying the shortest-path
functions of networkx that src/gedcom_graph.py calls. -/
def Graph.rwalks (g : Graph α) (a : α) : Nat → List (List α)
  | 0 => [[a]]
  | n + 1 =>
    (g.rwalks a n).flatMap (fun w => (g.nbrs (w.headD a)).map (fun y => y :: w))

/-- The predicate carved out by `rwalks`: a nonempty chain of adjacent nodes
ending (in list order) at `a`. -/
def IsRWalk (g : Graph α) (a : α) : List α → Prop
  | [] => False
  | [x] => x = a
  | x :: y :: rest => x ∈ g.nbrs y ∧ IsRWalk g a (y :: rest)

/-- Embeds `nx.shortest_path_length(graph, a, b)` as called by
src/gedcom_graph.py line 89, by its contract: the least number of edges of a
walk from `a` to `b` (searched up to the node count, which bounds every
shortest path), `none` when an endpoint is not a node (NodeNotFound) or no
walk exists (NetworkXNoPath). -/
def shortest_path_length (g : Graph α) (a b : α) : Option Nat :=
  if a ∈ g.nodes ∧ b ∈ g.nodes then
    (List.range (g.nodes.length + 1)).find?
      (fun n => (g.rwalks a n).any (fun w => decide (w.headD a = b)))
  else none

/-- Embeds `nx.shortest_path(graph, a, b)` as called by src/gedcom_graph.py
line 90, by its contract: the first shortest walk from `a` to `b` found by
breadth-first enumeration, as the node sequence from `a` to `b`; `none` under
the same conditions as `shortest_path_length`. -/
def shortest_path (g : Graph α) (a b : α) : Option (List α) :=
  if a ∈ g.nodes ∧ b ∈ g.nodes then
    ((List.range (g.nodes.length + 1)).findSome?
        (fun n => (g.rwalks a n).find? (fun w => decide (w.headD a = b)))).map
      List.reverse
  else none

/-- Embeds `distance_and_path` of src/gedcom_graph.py lines 68-93: the pair of
the two networkx results, with NodeNotFound / NetworkXNoPath caught and mapped
to `(None, [])`.  The function is total: no other exception can escape. -/
def distance_and_path (g : Graph α) (a b : α) : Option Nat × List α :=
  match shortest_path_length g a b, shortest_path g a b with
  | some d, some p => (some d, p)
  | _, _ => (none, [])

/-- Reachability by some walk; `distance_and_path` answers `(none, [])`
exactly when this fails or an endpoint is unknown. -/
def Reachable (g : Graph α) (a b : α) : Prop :=
  ∃ n, ∃ w ∈ g.rwalks a n, w.headD a = b

/-- Embeds the path-rendering loop of src/main.py build_issue_body lines
218-228: reverse the path, label each person by `get_relationship` against its
successor in the reversed order, append the bare final name, and join with
single spaces.  Propagates the classifier's exception as `none`; the source
only reaches this loop with a nonempty path (line 217 guards `and path`). -/
def render_path (id2name : List (String × String)) (recs : List Elem)
    (path : List String) (lang : String) : Option String :=
  let rp := path.reverse
  match rp with
  | [] => none
  | _ :: _ =>
    (rp.zip rp.tail).mapM
        (fun pq => (get_relationship recs pq.1 pq.2 lang).map
          (fun rel => dict_getD id2name pq.1 pq.1 ++ " (" ++ rel ++ ")")) |>.map
      (fun parts =>
        String.intercalate " "
          (parts ++ [dict_getD id2name (rp.getLastD "") (rp.getLastD "")]))

/-- The adjacency dict built by src/calculate_distance.py build_family_graph:
its key set (the INDI pointers) and the neighbour set of each key (empty
outside the keys). -/
structure FG where
  keys : List String
  adj : String → List String

/-- Key set of the `individuals` dict of build_family_graph (first pass,
lines 18-22): the pointers of the INDI records. -/
def indi_keys (recs : List Elem) : List String :=
  ((recs.filter (fun e => decide (e.tag = "INDI"))).map (fun e => e.pointer)).dedup

/-- Lookup in the `individuals` dict: the last INDI record with the pointer
wins, as repeated python dict assignment overwrites. -/
def lookup_indi (recs : List Elem) (id : String) : Option Elem :=
  (recs.filter (fun e => decide (e.tag = "INDI"))).reverse.find?
    (fun e => decide (e.pointer = id))

/-- Lookup in the `families` dict of build_family_graph (first pass, lines
23-25), with the same last-wins overwrite semantics. -/
def lookup_fam (recs : List Elem) (id : String) : Option Elem :=
  (recs.filter (fun e => decide (e.tag = "FAM"))).reverse.find?
    (fun e => decide (e.pointer = id))

/-- Embeds `graph[x].add(y)`: insert into one neighbour set. -/
def fg_add (g : FG) (x y : String) : FG :=
  { g with adj := fun z => if z = x then (g.adj x).insert y else g.adj z }

/-- Embeds the paired updates `graph[a].add(b); graph[b].add(a)` that
build_family_graph always performs together. -/
def fg_link (g : FG) (a b : String) : FG :=
  fg_add (fg_add g a b) b a

/-- Embeds the second pass of build_family_graph (lines 28-54) for one
individual: follow each FAMC sub-element to a known family and link to its
HUSB/WIFE values that are known individuals; follow each FAMS sub-element to a
known family and link to its HUSB/WIFE values that are known individuals and
differ from this individual.  Dangling family or spouse references add no
edge. -/
def process_indi (recs : List Elem) (g : FG) (indi_id : String) : FG :=
  match lookup_indi recs indi_id with
  | none => g
  | some elem =>
    elem.children.foldl
      (fun h c =>
        if c.tag = "FAMC" then
          match lookup_fam recs c.value with
          | some fam =>
            fam.children.foldl
              (fun h2 fc =>
                if decide (fc.tag = "HUSB") && decide (fc.value ∈ indi_keys recs) then
                  fg_link h2 indi_id fc.value
                else if decide (fc.tag = "WIFE") && decide (fc.value ∈ indi_keys recs) then
                  fg_link h2 indi_id fc.value
                else h2)
              h
          | none => h
        else if c.tag = "FAMS" then
          match lookup_fam recs c.value with
          | some fam =>
            fam.children.foldl
              (fun h2 fc =>
                if decide (fc.tag = "HUSB") && decide (fc.value ≠ indi_id) &&
                    decide (fc.value ∈ indi_keys recs) then
                  fg_link h2 indi_id fc.value
                else if decide (fc.tag = "WIFE") && decide (fc.value ≠ indi_id) &&
                    decide (fc.value ∈ indi_keys recs) then
                  fg_link h2 indi_id fc.value
                else h2)
              h
          | none => h
        else h)
      g

/-- Embeds `build_family_graph` of src/calculate_distance.py lines 8-55:
one empty neighbour set per INDI pointer, then the second pass over the
individuals.  Construction is total: duplicate identifiers silently
overwrite, dangling references are skipped, nothing raises. -/
def build_family_graph (recs : List Elem) : FG :=
  (indi_keys recs).foldl (process_indi recs)
    { keys := indi_keys recs, adj := fun _ => [] }

/-- The `distances` dict of calculate_distances: its key set and values.
Reading a key outside `dom` is a python KeyError. -/
structure DistMap where
  dom : List String
  val : String → Int

/-- Dict read: `none` models KeyError. -/
def dm_get (d : DistMap) (k : String) : Option Int :=
  if k ∈ d.dom then some (d.val k) else none

/-- Dict write: `d[k] = v` inserts the key when absent. -/
def dm_set (d : DistMap) (k : String) (v : Int) : DistMap :=
  { dom := if k ∈ d.dom then d.dom else d.dom ++ [k],
    val := fun z => if z = k then v else d.val z }

/-- Dict read on the graph: `graph[k]`; `none` models KeyError. -/
def fg_get (g : FG) (k : String) : Option (List String) :=
  if k ∈ g.keys then some (g.adj k) else none

/-- Embeds the neighbour loop of calculate_distances (lines 70-73): for each
neighbour, read its distance (KeyError possible), and if it is -1, set it to
the current node's distance + 1 and enqueue it.  Returns the updated map and
the nodes enqueued by this loop. -/
def calc_step (d : DistMap) (cur : String) :
    List String → List String → Option (DistMap × List String)
  | [], q => some (d, q)
  | n :: ns, q =>
    match dm_get d n with
    | none => none
    | some dn =>
      if dn = -1 then
        match dm_get d cur with
        | none => none
        | some dc => calc_step (dm_set d n (dc + 1)) cur ns (q ++ [n])
      else calc_step d cur ns q

/-- Embeds the while-loop of calculate_distances (lines 68-73), with a fuel
bound on the number of dequeue steps.  `none` models an uncaught KeyError;
running out of fuel truncates the loop but is not a failure. -/
def calc_loop (g : FG) : Nat → List String → DistMap → Option DistMap
  | 0, _, d => some d
  | _ + 1, [], d => some d
  | fuel + 1, cur :: rest, d =>
    match fg_get g cur with
    | none => none
    | some ns =>
      match calc_step d cur ns rest with
      | none => none
      | some (d2, q2) => calc_loop g fuel q2 d2

/-- Embeds `calculate_distances` of src/calculate_distance.py lines 63-74:
initialise every graph key to -1, the start node to 0, and run the
breadth-first loop. -/
def calculate_distances (g : FG) (start : String) (fuel : Nat) : Option DistMap :=
  calc_loop g fuel [start] (dm_set { dom := g.keys, val := fun _ => -1 } start 0)

/-- Embeds the neighbour loop of `find_path` (lines 86-89): visited check,
then mark visited and enqueue with the extended path. -/
def fp_step (visited : List String) (queue : List (String × List String))
    (path : List String) : List String → List String × List (String × List String)
  | [] => (visited, queue)
  | n :: ns =>
    if n ∈ visited then fp_step visited queue path ns
    else fp_step (visited ++ [n]) (queue ++ [(n, path ++ [n])]) path ns

/-- Embeds the while-loop of `find_path` (lines 80-90), fuel-bounded as in
`calc_loop`.  The outer Option models an uncaught KeyError; the inner Option
is the function's own result (`None` when the queue empties). -/
def find_path_loop (g : FG) (endn : String) :
    Nat → List (String × List String) → List String → Option (Option (List String))
  | 0, _, _ => some none
  | _ + 1, [], _ => some none
  | fuel + 1, (cur, path) :: rest, visited =>
    if cur = endn then some (some path)
    else
      match fg_get g cur with
      | none => none
      | some ns =>
        let st := fp_step visited rest path ns
        find_path_loop g endn fuel st.2 st.1

/-- Embeds `find_path` of src/calculate_distance.py lines 76-90. -/
def find_path (g : FG) (s e : String) (fuel : Nat) : Option (Option (List String)) :=
  find_path_loop g e fuel [(s, [s])] [s]

/-- Two identifiers co-occur in one FAM record of the record set as its
husband-wife pair or as a truthy parent (husband or wife) and a child. -/
def FamCooccur (recs : List Elem) (u v : String) : Prop :=
  ∃ f ∈ recs, f.tag = "FAM" ∧
    ((truthy (fam_husb_wife_children f).1 = true ∧
        truthy (fam_husb_wife_children f).2.1 = true ∧
        (fam_husb_wife_children f).1 = some u ∧
        (fam_husb_wife_children f).2.1 = some v) ∨
      (truthy (fam_husb_wife_children f).1 = true ∧
        (fam_husb_wife_children f).1 = some u ∧ v ∈ (fam_husb_wife_children f).2.2) ∨
      (truthy (fam_husb_wife_children f).2.1 = true ∧
        (fam_husb_wife_children f).2.1 = some u ∧ v ∈ (fam_husb_wife_children f).2.2))

/-- The individual resolved by `x` in the individuals dict carries a
sub-element with this tag and value. -/
def HasSubLink (recs : List Elem) (x t v : String) : Prop :=
  ∃ e, lookup_indi recs x = some e ∧ (⟨t, v⟩ : SubElem) ∈ e.children

/-- `y` is a recorded HUSB or WIFE value of the family record. -/
def SpouseVal (fam : Elem) (y : String) : Prop :=
  (⟨"HUSB", y⟩ : SubElem) ∈ fam.children ∨ (⟨"WIFE", y⟩ : SubElem) ∈ fam.children

/-- Two identifiers are linked through one family of the families dict: one of
them references the family by FAMC or FAMS and the other is recorded as that
family's husband or wife (for FAMS, a spouse other than the referencing
individual). -/
def FamLinked (recs : List Elem) (x y : String) : Prop :=
  ∃ famid fam, lookup_fam recs famid = some fam ∧
    ((HasSubLink recs x "FAMC" famid ∧ SpouseVal fam y) ∨
      (HasSubLink recs x "FAMS" famid ∧ SpouseVal fam y ∧ y ≠ x) ∨
      (HasSubLink recs y "FAMC" famid ∧ SpouseVal fam x) ∨
      (HasSubLink recs y "FAMS" famid ∧ SpouseVal fam x ∧ x ≠ y))

/-- Concrete two-node graph used to instantiate the path-engine theorems. -/
def gC1 : Graph Nat := ⟨[0, 1], [(0, 1)]⟩

/-- Concrete one-node graph used to instantiate the unknown-node case. -/
def gC2 : Graph Nat := ⟨[0], []⟩

/-- A family whose child record carries no FAMC link: the builder still makes
the parent-child edge, but the classifier cannot see it. -/
def recsC3ce : List Elem :=
  [⟨"@I1@", "INDI", []⟩, ⟨"@I2@", "INDI", []⟩,
    ⟨"@F1@", "FAM", [⟨"HUSB", "@I1@"⟩, ⟨"CHIL", "@I2@"⟩]⟩]

/-- A parent-child pair with the FAMC back-link present. -/
def recsC3w : List Elem :=
  [⟨"@I1@", "INDI", [⟨"SEX", "M"⟩]⟩,
    ⟨"@I2@", "INDI", [⟨"SEX", "M"⟩, ⟨"FAMC", "@F1@"⟩]⟩,
    ⟨"@F1@", "FAM", [⟨"HUSB", "@I1@"⟩, ⟨"CHIL", "@I2@"⟩]⟩]

/-- A record set with a family but no individual records at all. -/
def recsC4ce : List Elem :=
  [⟨"@F1@", "FAM", [⟨"HUSB", "@I1@"⟩, ⟨"WIFE", "@I2@"⟩]⟩]

/-- Two INDI records sharing one identifier. -/
def recsC5 : List Elem :=
  [⟨"@I1@", "INDI", [⟨"NAME", "First /A/"⟩]⟩,
    ⟨"@I1@", "INDI", [⟨"NAME", "Second /B/"⟩]⟩]

/-- A spouse pair whose husband record carries no SEX sub-element. -/
def recsC6 : List Elem :=
  [⟨"@I1@", "INDI", [⟨"FAMS", "@F1@"⟩]⟩,
    ⟨"@I2@", "INDI", [⟨"SEX", "F"⟩, ⟨"FAMS", "@F1@"⟩]⟩,
    ⟨"@F1@", "FAM", [⟨"HUSB", "@I1@"⟩, ⟨"WIFE", "@I2@"⟩]⟩]

/-- A recorded husband-wife pair whose individual records carry no FAMS
link back to the family. -/
def recsC7ce : List Elem :=
  [⟨"@I1@", "INDI", [⟨"SEX", "M"⟩]⟩,
    ⟨"@I2@", "INDI", [⟨"SEX", "F"⟩]⟩,
    ⟨"@F1@", "FAM", [⟨"HUSB", "@I1@"⟩, ⟨"WIFE", "@I2@"⟩]⟩]

/-- A recorded husband-wife pair with both FAMS links present. -/
def recsC7w : List Elem :=
  [⟨"@I1@", "INDI", [⟨"SEX", "M"⟩, ⟨"FAMS", "@F1@"⟩]⟩,
    ⟨"@I2@", "INDI", [⟨"SEX", "F"⟩, ⟨"FAMS", "@F1@"⟩]⟩,
    ⟨"@F1@", "FAM", [⟨"HUSB", "@I1@"⟩, ⟨"WIFE", "@I2@"⟩]⟩]

/-- The end-to-end scenario of the spec: I1 (M) and I2 (F) married with child
I3 (M), I3 married to I4 (F); names chosen to match the identifiers the spec
uses in its expected rendering. -/
def recsC8 : List Elem :=
  [⟨"@I1@", "INDI", [⟨"NAME", "I1"⟩, ⟨"SEX", "M"⟩, ⟨"FAMS", "@F1@"⟩]⟩,
    ⟨"@I2@", "INDI", [⟨"NAME", "I2"⟩, ⟨"SEX", "F"⟩, ⟨"FAMS", "@F1@"⟩]⟩,
    ⟨"@I3@", "INDI", [⟨"NAME", "I3"⟩, ⟨"SEX", "M"⟩, ⟨"FAMC", "@F1@"⟩, ⟨"FAMS", "@F2@"⟩]⟩,
    ⟨"@I4@", "INDI", [⟨"NAME", "I4"⟩, ⟨"SEX", "F"⟩, ⟨"FAMS", "@F2@"⟩]⟩,
    ⟨"@F1@", "FAM", [⟨"HUSB", "@I1@"⟩, ⟨"WIFE", "@I2@"⟩, ⟨"CHIL", "@I3@"⟩]⟩,
    ⟨"@F2@", "FAM", [⟨"HUSB", "@I3@"⟩, ⟨"WIFE", "@I4@"⟩]⟩]

/-- A small two-person family for instantiating the dict-graph theorems. -/
def recsC10 : List Elem :=
  [⟨"@I1@", "INDI", [⟨"FAMS", "@F1@"⟩]⟩,
    ⟨"@I2@", "INDI", [⟨"FAMS", "@F1@"⟩]⟩,
    ⟨"@F1@", "FAM", [⟨"HUSB", "@I1@"⟩, ⟨"WIFE", "@I2@"⟩]⟩]

/-! Theorems. -/

/-- C3 counterexample: the graph builder creates the parent-child edge
(@I1@, @I2@) from the family record alone, but with no FAMC sub-element on the
child the classifier returns the relative fallback in both directions, not
father-of / mother-of / son-of / daughter-of. -/
theorem c3_parent_edge_classified_ce :
    ("@I1@", "@I2@") ∈ (build_graph recsC3ce).1.edges ∧
      get_relationship recsC3ce "@I1@" "@I2@" "en" = some "relative" ∧
      get_relationship recsC3ce "@I2@" "@I1@" "en" = some "relative" ∧
      "relative" ≠ get_translation "en" "father_of" ∧
      "relative" ≠ get_translation "en" "mother_of" ∧
      "relative" ≠ get_translation "en" "son_of" ∧
      "relative" ≠ get_translation "en" "daughter_of" := by
  decide

/-- C4 counterexample: from a record set with a family but no individuals,
build_graph still creates the spouse edge; its endpoints resolve to no known
individual (the name map is empty on them). -/
theorem c4_edges_known_cooccur_ce :
    ("@I1@", "@I2@") ∈ (build_graph recsC4ce).1.edges ∧
      dict_get (build_graph recsC4ce).2 "@I1@" = none ∧
      dict_get (build_graph recsC4ce).2 "@I2@" = none := by
  decide

/-- C5 counterexample: on a record set with two INDI records sharing a
pointer, index construction completes (no DuplicateIdentifier failure exists
in the code); the second record silently overwrites the first, and the graph
is built with the single key. -/
theorem c5_duplicate_id_ce :
    lookup_indi recsC5 "@I1@" = some ⟨"@I1@", "INDI", [⟨"NAME", "Second /B/"⟩]⟩ ∧
      (build_family_graph recsC5).keys = ["@I1@"] := by
  constructor
  · decide
  · rfl

/-- C6 counterexample: a spouse whose gender is unrecorded is classified
wife-of, not husband-of: the classifier tests for gender "M" exactly and an
unrecorded gender reads back as "". -/
theorem c6_default_gender_ce :
    get_relationship recsC6 "@I1@" "@I2@" "en" = some "wife-of" ∧
      some "wife-of" ≠ some (get_translation "en" "husband_of") := by
  decide

/-- C7 counterexample: a recorded husband (M) and wife (F) whose individual
records carry no FAMS link are classified as relative, not husband-of /
wife-of: the spouse check only scans the families reached through FAMS. -/
theorem c7_spouse_pair_ce :
    get_relationship recsC7ce "@I1@" "@I2@" "en" = some "relative" ∧
      get_relationship recsC7ce "@I2@" "@I1@" "en" = some "relative" ∧
      "relative" ≠ get_translation "en" "husband_of" ∧
      "relative" ≠ get_translation "en" "wife_of" := by
  decide

/-- C8 counterexample: on the four-person scenario the path engine does
return (2, [I1, I3, I4]), but rendering that path from I4 back to I1 labels
each person by its own relation to the next — "I4 (wife-of) I3 (son-of) I1" —
which is not the text "I1 (father-of) I3 (husband-of) I4" the claim states. -/
theorem c8_end_to_end_ce :
    render_path (build_graph recsC8).2 recsC8 ["@I1@", "@I3@", "@I4@"] "en" =
        some "I4 (wife-of) I3 (son-of) I1" ∧
      "I4 (wife-of) I3 (son-of) I1" ≠ "I1 (father-of) I3 (husband-of) I4" := by
  constructor
  · rfl
  · decide

/-- C8 amended: the path engine returns (2, [I1, I3, I4]) as claimed, and the
rendering of that path from I4 back to I1 is the converse-direction text
"I4 (wife-of) I3 (son-of) I1". -/
theorem c8_end_to_end :
    distance_and_path (build_graph recsC8).1 "@I1@" "@I4@" =
        (some 2, ["@I1@", "@I3@", "@I4@"]) ∧
      render_path (build_graph recsC8).2 recsC8 ["@I1@", "@I3@", "@I4@"] "en" =
        some "I4 (wife-of) I3 (son-of) I1" := by
  constructor
  · rfl
  · rfl

theorem parent_label_cases (recs : List Elem) (p1 p2 : Elem) (lang : String)
    (h : parent_cond recs p1 p2 = true) :
    parent_label recs p1 p2 lang = get_translation lang "father_of" ∨
      parent_label recs p1 p2 lang = get_translation lang "mother_of" := by
  cases hf : find_sub_element p2 "FAMC" with
  | none =>
    unfold parent_cond at h
    rw [hf] at h
    simp at h
  | some famc =>
    cases hd : get_element_dictionary recs famc.value with
    | none =>
      unfold parent_cond at h
      rw [hf] at h
      simp [hd] at h
    | some fam =>
      by_cases hb :
          (truthy (get_husband_and_wife_ids fam).1 &&
            decide (p1.pointer = (get_husband_and_wife_ids fam).1.getD "")) = true
      · left
        simp [parent_label, hf, hd, hb]
      · right
        simp only [parent_label, hf, hd]
        rw [if_neg (by simpa using hb)]

/-- C3 amended: a parent-child edge made by the graph builder is classified
father-of / mother-of (and son-of / daughter-of in reverse) provided both
identifiers resolve to individual records, the child's first FAMC resolves to
a family whose truthy husband or wife is the parent (the classifier's parent
test), and neither the spouse test nor the converse parent test matches. -/
theorem c3_parent_edge_classified (recs : List Elem) (par ch lang : String)
    (pe ce : Elem)
    (hedge : (par, ch) ∈ (build_graph recs).1.edges)
    (hpar : get_element_dictionary recs par = some pe)
    (hpt : pe.tag = "INDI")
    (hch : get_element_dictionary recs ch = some ce)
    (hct : ce.tag = "INDI")
    (hpc : parent_cond recs pe ce = true)
    (hs1 : spouse_cond recs pe ce = false)
    (hs2 : spouse_cond recs ce pe = false)
    (hnp : parent_cond recs ce pe = false) :
    (get_relationship recs par ch lang = some (get_translation lang "father_of") ∨
      get_relationship recs par ch lang = some (get_translation lang "mother_of")) ∧
      (get_relationship recs ch par lang = some (get_translation lang "son_of") ∨
        get_relationship recs ch par lang = some (get_translation lang "daughter_of")) := by
  constructor
  · have hlabel := parent_label_cases recs pe ce lang hpc
    unfold get_relationship
    rw [hpar, hch]
    simp only [hpt, if_pos, hs1, Bool.false_eq_true, ite_false, hpc, ite_true]
    rcases hlabel with h | h
    · exact Or.inl (by rw [h])
    · exact Or.inr (by rw [h])
  · unfold get_relationship
    rw [hch, hpar]
    have hcc : child_cond recs ce pe = true := hpc
    simp only [hct, if_pos, hs2, Bool.false_eq_true, ite_false, hnp, hcc, ite_true]
    by_cases hg : get_gender ce = "M"
    · exact Or.inl (by rw [if_pos hg])
    · exact Or.inr (by rw [if_neg hg])

/-- C3 witness: the amended theorem applied to the concrete parent-child
records with the FAMC back-link present. -/
theorem c3_parent_edge_classified_witness :
    (("@I1@", "@I2@") ∈ (build_graph recsC3w).1.edges ∧
        parent_cond recsC3w ⟨"@I1@", "INDI", [⟨"SEX", "M"⟩]⟩
          ⟨"@I2@", "INDI", [⟨"SEX", "M"⟩, ⟨"FAMC", "@F1@"⟩]⟩ = true) ∧
      ((get_relationship recsC3w "@I1@" "@I2@" "en" =
            some (get_translation "en" "father_of") ∨
          get_relationship recsC3w "@I1@" "@I2@" "en" =
            some (get_translation "en" "mother_of")) ∧
        (get_relationship recsC3w "@I2@" "@I1@" "en" =
            some (get_translation "en" "son_of") ∨
          get_relationship recsC3w "@I2@" "@I1@" "en" =
            some (get_translation "en" "daughter_of"))) :=
  ⟨⟨by decide, by decide⟩,
    c3_parent_edge_classified recsC3w "@I1@" "@I2@" "en"
      ⟨"@I1@", "INDI", [⟨"SEX", "M"⟩]⟩
      ⟨"@I2@", "INDI", [⟨"SEX", "M"⟩, ⟨"FAMC", "@F1@"⟩]⟩
      (by decide) (by decide) (by decide) (by decide) (by decide) (by decide)
      (by decide) (by decide) (by decide)⟩

/-- C6 amended: the classifier treats any gender other than exactly "M" —
including the unrecorded gender, which reads back as "" — as the female
branch: a matching spouse is labelled wife-of and a matching child
daughter-of. -/
theorem c6_nonmale_gender (recs : List Elem) (p1_id p2_id lang : String)
    (p1 p2 : Elem)
    (h1 : get_element_dictionary recs p1_id = some p1)
    (ht : p1.tag = "INDI")
    (h2 : get_element_dictionary recs p2_id = some p2)
    (hg : get_gender p1 ≠ "M") :
    (spouse_cond recs p1 p2 = true →
        get_relationship recs p1_id p2_id lang =
          some (get_translation lang "wife_of")) ∧
      (spouse_cond recs p1 p2 = false → parent_cond recs p1 p2 = false →
        child_cond recs p1 p2 = true →
        get_relationship recs p1_id p2_id lang =
          some (get_translation lang "daughter_of")) := by
  constructor
  · intro hs
    unfold get_relationship
    rw [h1, h2]
    simp only [ht, if_pos, hs, ite_true]
    rw [if_neg hg]
  · intro hs hp hc
    unfold get_relationship
    rw [h1, h2]
    simp only [ht, if_pos, hs, Bool.false_eq_true, ite_false, hp, hc, ite_true]
    rw [if_neg hg]

/-- C6 witness: the amended theorem applied to the spouse pair whose husband
record has no SEX sub-element. -/
theorem c6_nonmale_gender_witness :
    (get_gender ⟨"@I1@", "INDI", [⟨"FAMS", "@F1@"⟩]⟩ ≠ "M" ∧
        spouse_cond recsC6 ⟨"@I1@", "INDI", [⟨"FAMS", "@F1@"⟩]⟩
          ⟨"@I2@", "INDI", [⟨"SEX", "F"⟩, ⟨"FAMS", "@F1@"⟩]⟩ = true) ∧
      get_relationship recsC6 "@I1@" "@I2@" "en" =
        some (get_translation "en" "wife_of") :=
  ⟨⟨by decide, by decide⟩,
    (c6_nonmale_gender recsC6 "@I1@" "@I2@" "en"
          ⟨"@I1@", "INDI", [⟨"FAMS", "@F1@"⟩]⟩
          ⟨"@I2@", "INDI", [⟨"SEX", "F"⟩, ⟨"FAMS", "@F1@"⟩]⟩
          (by decide) (by decide) (by decide) (by decide)).1
      (by decide)⟩

/-- C7 amended: a recorded husband (gender M) and wife (gender F) are
classified husband-of / wife-of provided each of their records carries a FAMS
link resolving to that family, so the spouse check can reach it. -/
theorem c7_spouse_pair (recs : List Elem) (aId bId lang : String)
    (pa pb fam : Elem)
    (ha : get_element_dictionary recs aId = some pa)
    (hat : pa.tag = "INDI")
    (hag : get_gender pa = "M")
    (hb : get_element_dictionary recs bId = some pb)
    (hbt : pb.tag = "INDI")
    (hbg : get_gender pb = "F")
    (hhw : get_husband_and_wife_ids fam = (some pa.pointer, some pb.pointer))
    (hna : pa.pointer ≠ "")
    (hnb : pb.pointer ≠ "")
    (hfa : fam ∈ get_families recs pa)
    (hfb : fam ∈ get_families recs pb) :
    get_relationship recs aId bId lang = some (get_translation lang "husband_of") ∧
      get_relationship recs bId aId lang = some (get_translation lang "wife_of") := by
  have hmab : spouse_match pa pb fam = true := by
    unfold spouse_match
    rw [hhw]
    simp [truthy, hna, hnb]
  have hmba : spouse_match pb pa fam = true := by
    unfold spouse_match
    rw [hhw]
    simp [truthy, hna, hnb]
  have hsa : spouse_cond recs pa pb = true :=
    List.any_eq_true.mpr ⟨fam, hfa, hmab⟩
  have hsb : spouse_cond recs pb pa = true :=
    List.any_eq_true.mpr ⟨fam, hfb, hmba⟩
  constructor
  · unfold get_relationship
    rw [ha, hb]
    simp only [hat, if_pos, hsa, ite_true]
    rw [if_pos hag]
  · unfold get_relationship
    rw [hb, ha]
    simp only [hbt, if_pos, hsb, ite_true]
    rw [if_neg (by rw [hbg]; decide)]

/-- C7 witness: the amended theorem applied to the concrete couple with both
FAMS links present. -/
theorem c7_spouse_pair_witness :
    (get_husband_and_wife_ids ⟨"@F1@", "FAM", [⟨"HUSB", "@I1@"⟩, ⟨"WIFE", "@I2@"⟩]⟩ =
          (some "@I1@", some "@I2@") ∧
        (⟨"@F1@", "FAM", [⟨"HUSB", "@I1@"⟩, ⟨"WIFE", "@I2@"⟩]⟩ : Elem) ∈
          get_families recsC7w ⟨"@I1@", "INDI", [⟨"SEX", "M"⟩, ⟨"FAMS", "@F1@"⟩]⟩) ∧
      get_relationship recsC7w "@I1@" "@I2@" "en" =
          some (get_translation "en" "husband_of") ∧
        get_relationship recsC7w "@I2@" "@I1@" "en" =
          some (get_translation "en" "wife_of") :=
  ⟨⟨by decide, by decide⟩,
    c7_spouse_pair recsC7w "@I1@" "@I2@" "en"
      ⟨"@I1@", "INDI", [⟨"SEX", "M"⟩, ⟨"FAMS", "@F1@"⟩]⟩
      ⟨"@I2@", "INDI", [⟨"SEX", "F"⟩, ⟨"FAMS", "@F1@"⟩]⟩
      ⟨"@F1@", "FAM", [⟨"HUSB", "@I1@"⟩, ⟨"WIFE", "@I2@"⟩]⟩
      (by decide) (by decide) (by decide) (by decide) (by decide) (by decide)
      (by decide) (by decide) (by decide) (by decide) (by decide)⟩

theorem mem_nbrs (g : Graph α) (x y : α) :
    y ∈ g.nbrs x ↔ y ∈ g.nodes ∧ g.adj x y := by
  simp [Graph.nbrs, Graph.adjB, List.mem_filter]

theorem adj_symm (g : Graph α) (x y : α) : g.adj x y ↔ g.adj y x := by
  unfold Graph.adj
  exact Or.comm

theorem isrwalk_ne_nil {g : Graph α} {a : α} {w : List α}
    (h : IsRWalk g a w) : w ≠ [] := by
  cases w with
  | nil => exact absurd h (by simp [IsRWalk])
  | cons x t => exact List.cons_ne_nil x t

theorem isrwalk_getLast {g : Graph α} {a : α} :
    ∀ {w : List α}, IsRWalk g a w → w.getLast? = some a := by
  intro w
  induction w with
  | nil => intro h; exact absurd h (by simp [IsRWalk])
  | cons x t ih =>
    intro h
    cases t with
    | nil => simp [IsRWalk] at h; simp [h]
    | cons y t' =>
      rw [List.getLast?_cons_cons]
      exact ih h.2

theorem isrwalk_mem_nodes {g : Graph α} {a : α} (ha : a ∈ g.nodes) :
    ∀ {w : List α}, IsRWalk g a w → ∀ x ∈ w, x ∈ g.nodes := by
  intro w
  induction w with
  | nil => intro h; exact absurd h (by simp [IsRWalk])
  | cons x t ih =>
    intro h z hz
    cases t with
    | nil =>
      simp [IsRWalk] at h
      rcases List.mem_singleton.mp hz with rfl
      rwa [h]
    | cons y t' =>
      rcases List.mem_cons.mp hz with rfl | hz'
      · exact ((mem_nbrs g y z).mp h.1).1
      · exact ih h.2 z hz'

theorem isrwalk_chain {g : Graph α} {a : α} :
    ∀ {w : List α}, IsRWalk g a w ↔
      w ≠ [] ∧ w.getLast? = some a ∧ List.Chain' (fun x y => x ∈ g.nbrs y) w := by
  intro w
  induction w with
  | nil => simp [IsRWalk]
  | cons x t ih =>
    cases t with
    | nil => simp [IsRWalk]
    | cons y t' =>
      constructor
      · intro h
        refine ⟨List.cons_ne_nil _ _, ?_, ?_⟩
        · rw [List.getLast?_cons_cons]
          exact isrwalk_getLast h.2
        · exact List.chain'_cons.mpr ⟨h.1, (ih.mp h.2).2.2⟩
      · intro h
        refine ⟨(List.chain'_cons.mp h.2.2).1, ?_⟩
        refine ih.mpr ⟨List.cons_ne_nil _ _, ?_, (List.chain'_cons.mp h.2.2).2⟩
        rw [List.getLast?_cons_cons] at h
        exact h.2.1

theorem mem_rwalks {g : Graph α} {a : α} :
    ∀ {n : Nat} {w : List α}, w ∈ g.rwalks a n ↔ IsRWalk g a w ∧ w.length = n + 1 := by
  intro n
  induction n with
  | zero =>
    intro w
    constructor
    · intro h
      rcases List.mem_singleton.mp h with rfl
      exact ⟨by simp [IsRWalk], rfl⟩
    · rintro ⟨hw, hl⟩
      cases w with
      | nil => simp at hl
      | cons x t =>
        cases t with
        | nil =>
          simp [IsRWalk] at hw
          simp [Graph.rwalks, hw]
        | cons y t' => simp at hl
  | succ n ih =>
    intro w
    constructor
    · intro h
      simp only [Graph.rwalks, List.mem_flatMap, List.mem_map] at h
      rcases h with ⟨w', hw', y, hy, rfl⟩
      rcases ih.mp hw' with ⟨hwalk, hlen⟩
      cases w' with
      | nil => exact absurd hwalk (by simp [IsRWalk])
      | cons x t =>
        simp only [List.headD_cons] at hy
        exact ⟨⟨hy, hwalk⟩, by simpa using hlen⟩
    · rintro ⟨hw, hl⟩
      cases w with
      | nil => simp at hl
      | cons z rest =>
        cases rest with
        | nil => simp at hl
        | cons x t =>
          simp only [Graph.rwalks, List.mem_flatMap, List.mem_map]
          refine ⟨x :: t, ih.mpr ⟨hw.2, by simpa using hl⟩, z, ?_, rfl⟩
          simpa using hw.1

theorem chain_nbrs_flip {g : Graph α} :
    ∀ {w : List α}, (∀ x ∈ w, x ∈ g.nodes) →
      List.Chain' (fun x y => x ∈ g.nbrs y) w →
      List.Chain' (fun x y => y ∈ g.nbrs x) w := by
  intro w
  induction w with
  | nil => intro _ _; exact List.chain'_nil
  | cons x t ih =>
    intro hnodes h
    cases t with
    | nil => simp
    | cons y t' =>
      rcases List.chain'_cons.mp h with ⟨hxy, ht⟩
      refine List.chain'_cons.mpr ⟨?_, ih (fun z hz => hnodes z (List.mem_cons_of_mem x hz)) ht⟩
      refine (mem_nbrs g x y).mpr ⟨hnodes y (by simp), ?_⟩
      exact (adj_symm g y x).mp ((mem_nbrs g y x).mp hxy).2

theorem headD_eq_head? {w : List α} (h : w ≠ []) (d : α) :
    w.head? = some (w.headD d) := by
  cases w with
  | nil => exact absurd rfl h
  | cons x t => rfl

theorem isrwalk_reverse {g : Graph α} {a b : α} {w : List α}
    (ha : a ∈ g.nodes) (hw : IsRWalk g a w) (hb : w.headD a = b) :
    IsRWalk g b w.reverse ∧ w.reverse.headD b = a := by
  have hne : w ≠ [] := isrwalk_ne_nil hw
  have hchain := isrwalk_chain.mp hw
  have hmem := isrwalk_mem_nodes ha hw
  constructor
  · refine isrwalk_chain.mpr ⟨by simpa using hne, ?_, ?_⟩
    · rw [List.getLast?_reverse, headD_eq_head? hne a, hb]
    · rw [List.chain'_reverse]
      exact chain_nbrs_flip hmem hchain.2.2
  · have : w.reverse.head? = some a := by
      rw [List.head?_reverse]
      exact hchain.2.1
    have hrne : w.reverse ≠ [] := by simpa using hne
    rw [headD_eq_head? hrne b] at this
    exact Option.some_injective _ this

theorem rwalks_symm_exists {g : Graph α} {a b : α} {n : Nat}
    (ha : a ∈ g.nodes) :
    (∃ w ∈ g.rwalks a n, w.headD a = b) → ∃ w ∈ g.rwalks b n, w.headD b = a := by
  rintro ⟨w, hw, hhead⟩
  rcases mem_rwalks.mp hw with ⟨hwalk, hlen⟩
  rcases isrwalk_reverse ha hwalk hhead with ⟨hwalk', hhead'⟩
  exact ⟨w.reverse, mem_rwalks.mpr ⟨hwalk', by simpa using hlen⟩, hhead'⟩

theorem bool_eq_of_iff {x y : Bool} (h : x = true ↔ y = true) : x = y := by
  cases x <;> cases y <;> simp_all

theorem find?_isSome_eq_any {β : Type} (p : β → Bool) :
    ∀ l : List β, (l.find? p).isSome = l.any p := by
  intro l
  induction l with
  | nil => rfl
  | cons x t ih =>
    by_cases hx : p x = true
    · simp [List.find?_cons_of_pos _ hx, hx]
    · rw [List.find?_cons_of_neg _ (by simpa using hx)]
      simp [hx, ih]

theorem find?_congr_pt {β : Type} {p q : β → Bool} :
    ∀ {l : List β}, (∀ x ∈ l, p x = q x) → l.find? p = l.find? q := by
  intro l
  induction l with
  | nil => intro _; rfl
  | cons x t ih =>
    intro h
    have hx := h x (by simp)
    by_cases hpx : p x = true
    · rw [List.find?_cons_of_pos _ hpx, List.find?_cons_of_pos _ (hx ▸ hpx)]
    · rw [List.find?_cons_of_neg _ (by simpa using hpx),
        List.find?_cons_of_neg _ (by rw [← hx]; simpa using hpx)]
      exact ih (fun z hz => h z (List.mem_cons_of_mem x hz))

theorem find?_findSome?_some {β γ : Type} {p : β → Bool} {f : β → Option γ} :
    ∀ {l : List β}, (∀ x ∈ l, (f x).isSome = p x) →
      ∀ {n : β}, l.find? p = some n → l.findSome? f = f n := by
  intro l
  induction l with
  | nil => intro _ n h; simp at h
  | cons x t ih =>
    intro hpf n h
    by_cases hx : p x = true
    · rw [List.find?_cons_of_pos _ hx] at h
      obtain rfl : x = n := by injection h
      have hsome : (f x).isSome = true := by rw [hpf x (by simp)]; exact hx
      rcases Option.isSome_iff_exists.mp hsome with ⟨y, hy⟩
      simp [List.findSome?_cons, hy]
    · rw [List.find?_cons_of_neg _ (by simpa using hx)] at h
      have hnone : f x = none := by
        have := hpf x (by simp)
        exact Option.not_isSome_iff_eq_none.mp (by rw [this]; simpa using hx)
      rw [List.findSome?_cons, hnone]
      exact ih (fun z hz => hpf z (List.mem_cons_of_mem x hz)) h

theorem find?_findSome?_none {β γ : Type} {p : β → Bool} {f : β → Option γ} :
    ∀ {l : List β}, (∀ x ∈ l, (f x).isSome = p x) →
      l.find? p = none → l.findSome? f = none := by
  intro l
  induction l with
  | nil => intro _ _; rfl
  | cons x t ih =>
    intro hpf h
    by_cases hx : p x = true
    · rw [List.find?_cons_of_pos _ hx] at h
      exact absurd h (by simp)
    · rw [List.find?_cons_of_neg _ (by simpa using hx)] at h
      have hnone : f x = none := by
        have := hpf x (by simp)
        exact Option.not_isSome_iff_eq_none.mp (by rw [this]; simpa using hx)
      rw [List.findSome?_cons, hnone]
      exact ih (fun z hz => hpf z (List.mem_cons_of_mem x hz)) h

theorem spl_some {g : Graph α} {a b : α} {d : Nat}
    (h : shortest_path_length g a b = some d) :
    a ∈ g.nodes ∧ b ∈ g.nodes ∧
      ∃ w ∈ g.rwalks a d, w.headD a = b ∧ shortest_path g a b = some w.reverse := by
  unfold shortest_path_length at h
  split_ifs at h with hcond
  · refine ⟨hcond.1, hcond.2, ?_⟩
    have hps : ∀ n ∈ List.range (g.nodes.length + 1),
        ((g.rwalks a n).find? (fun w => decide (w.headD a = b))).isSome =
          (g.rwalks a n).any (fun w => decide (w.headD a = b)) :=
      fun n _ => find?_isSome_eq_any _ _
    have hfs := find?_findSome?_some hps h
    have hpd := List.find?_some h
    have hsome : ((g.rwalks a d).find? (fun w => decide (w.headD a = b))).isSome = true := by
      rw [find?_isSome_eq_any]
      exact hpd
    rcases Option.isSome_iff_exists.mp hsome with ⟨w, hw⟩
    refine ⟨w, List.mem_of_find?_eq_some hw, ?_, ?_⟩
    · simpa using List.find?_some hw
    · unfold shortest_path
      rw [if_pos hcond, hfs, hw]
      rfl

theorem spl_none {g : Graph α} {a b : α}
    (h : shortest_path_length g a b = none) : shortest_path g a b = none := by
  unfold shortest_path_length at h
  unfold shortest_path
  by_cases hcond : a ∈ g.nodes ∧ b ∈ g.nodes
  · rw [if_pos hcond] at h
    rw [if_pos hcond]
    have hps : ∀ n ∈ List.range (g.nodes.length + 1),
        ((g.rwalks a n).find? (fun w => decide (w.headD a = b))).isSome =
          (g.rwalks a n).any (fun w => decide (w.headD a = b)) :=
      fun n _ => find?_isSome_eq_any _ _
    rw [find?_findSome?_none hps h]
    rfl
  · rw [if_neg hcond]

theorem dap_fst (g : Graph α) (a b : α) :
    (distance_and_path g a b).1 = shortest_path_length g a b := by
  cases h : shortest_path_length g a b with
  | none =>
    unfold distance_and_path
    rw [h, spl_none h]
  | some d =>
    rcases spl_some h with ⟨-, -, w, -, -, hsp⟩
    unfold distance_and_path
    rw [h, hsp]

/-- C1: whenever `distance_and_path` returns a non-None distance `d` with path
`p`, the path has exactly `d` edges, starts at the source, ends at the target,
and every consecutive pair is an edge of the graph. -/
theorem c1_path_structure (g : Graph α) (a b : α) (d : Nat) (p : List α)
    (h : distance_and_path g a b = (some d, p)) :
    p.length - 1 = d ∧ p.head? = some a ∧ p.getLast? = some b ∧
      List.Chain' g.adj p := by
  have hspl : shortest_path_length g a b = some d := by
    have := dap_fst g a b
    rw [h] at this
    exact this.symm
  rcases spl_some hspl with ⟨ha, -, w, hwmem, hwhead, hsp⟩
  have hp : p = w.reverse := by
    unfold distance_and_path at h
    rw [hspl, hsp] at h
    exact (Prod.mk.injEq _ _ _ _ ▸ h).2.symm
  rcases mem_rwalks.mp hwmem with ⟨hwalk, hlen⟩
  subst hp
  have hne : w ≠ [] := isrwalk_ne_nil hwalk
  refine ⟨?_, ?_, ?_, ?_⟩
  · simp [hlen]
  · rw [List.head?_reverse]
    exact isrwalk_getLast hwalk
  · rw [List.getLast?_reverse, headD_eq_head? hne a, hwhead]
  · rw [List.chain'_reverse]
    have hchain := (isrwalk_chain.mp hwalk).2.2
    refine List.Chain'.imp ?_ hchain
    intro x y hxy
    exact ((mem_nbrs g y x).mp hxy).2

/-- C1 witness: the structure theorem applied to the two-node graph with a
single edge. -/
theorem c1_path_structure_witness :
    distance_and_path gC1 0 1 = (some 1, [0, 1]) ∧
      ([0, 1] : List Nat).length - 1 = 1 ∧ ([0, 1] : List Nat).head? = some 0 ∧
        ([0, 1] : List Nat).getLast? = some 1 ∧ List.Chain' gC1.adj [0, 1] :=
  ⟨by decide, c1_path_structure gC1 0 1 1 [0, 1] (by decide)⟩

/-- C2: when an endpoint is not a node of the graph, or the target is not
reachable from the source by any walk, `distance_and_path` returns exactly
`(none, [])`; the embedded function is total, so no exception escapes. -/
theorem c2_unknown_or_disconnected (g : Graph α) (a b : α)
    (h : a ∉ g.nodes ∨ b ∉ g.nodes ∨ ¬Reachable g a b) :
    distance_and_path g a b = (none, []) := by
  have hspl : shortest_path_length g a b = none := by
    unfold shortest_path_length
    split_ifs with hcond
    · have hreach : ¬Reachable g a b := by
        rcases h with h | h | h
        · exact absurd hcond.1 h
        · exact absurd hcond.2 h
        · exact h
      rw [List.find?_eq_none]
      intro n _
      intro hany
      rcases List.any_eq_true.mp hany with ⟨w, hw, hhead⟩
      exact hreach ⟨n, w, hw, by simpa using hhead⟩
    · rfl
  unfold distance_and_path
  rw [hspl, spl_none hspl]

/-- C2 witness: the theorem applied to a query whose source is not a node. -/
theorem c2_unknown_or_disconnected_witness :
    ((1 : Nat) ∉ gC2.nodes ∨ (0 : Nat) ∉ gC2.nodes ∨ ¬Reachable gC2 1 0) ∧
      distance_and_path gC2 1 0 = (none, []) :=
  ⟨Or.inl (by decide), c2_unknown_or_disconnected gC2 1 0 (Or.inl (by decide))⟩

theorem spl_symm (g : Graph α) (a b : α) :
    shortest_path_length g a b = shortest_path_length g b a := by
  unfold shortest_path_length
  by_cases hcond : a ∈ g.nodes ∧ b ∈ g.nodes
  · rw [if_pos hcond, if_pos ⟨hcond.2, hcond.1⟩]
    refine find?_congr_pt ?_
    intro n _
    refine bool_eq_of_iff ?_
    constructor
    · intro hany
      rcases List.any_eq_true.mp hany with ⟨w, hw, hhead⟩
      rcases rwalks_symm_exists hcond.1 ⟨w, hw, by simpa using hhead⟩ with ⟨w', hw', hh'⟩
      exact List.any_eq_true.mpr ⟨w', hw', by simpa using hh'⟩
    · intro hany
      rcases List.any_eq_true.mp hany with ⟨w, hw, hhead⟩
      rcases rwalks_symm_exists hcond.2 ⟨w, hw, by simpa using hhead⟩ with ⟨w', hw', hh'⟩
      exact List.any_eq_true.mpr ⟨w', hw', by simpa using hh'⟩
  · rw [if_neg hcond, if_neg (fun hc => hcond ⟨hc.2, hc.1⟩)]

/-- C9: the distance component of `distance_and_path` is symmetric in the two
query endpoints, for every graph and every pair of nodes. -/
theorem c9_distance_symmetric (g : Graph α) (a b : α) :
    (distance_and_path g a b).1 = (distance_and_path g b a).1 := by
  rw [dap_fst, dap_fst, spl_symm]

/-- C5 amended: Record Index construction never fails; for a record set in
which a later INDI record shadows every earlier one with the same pointer, the
individuals index resolves that pointer to the later record (python dict
assignment silently overwrites; there is no DuplicateIdentifier error). -/
theorem c5_last_record_wins (pre post : List Elem) (e : Elem)
    (he : e.tag = "INDI")
    (hlast : ∀ e2 ∈ post, e2.tag = "INDI" → e2.pointer ≠ e.pointer) :
    lookup_indi (pre ++ e :: post) e.pointer = some e := by
  unfold lookup_indi
  rw [List.filter_append, List.filter_cons_of_pos (by simpa using he),
    List.reverse_append, List.reverse_cons, List.find?_append, List.find?_append]
  have hpost : ((post.filter (fun x => decide (x.tag = "INDI"))).reverse.find?
      (fun x => decide (x.pointer = e.pointer))) = none := by
    rw [List.find?_eq_none]
    intro x hx
    rw [List.mem_reverse, List.mem_filter] at hx
    simpa using hlast x hx.1 (by simpa using hx.2)
  rw [hpost]
  simp

/-- C5 witness: the amended theorem applied to the duplicate pair; the second
record wins. -/
theorem c5_last_record_wins_witness :
    ((⟨"@I1@", "INDI", [⟨"NAME", "Second /B/"⟩]⟩ : Elem).tag = "INDI") ∧
      lookup_indi recsC5 "@I1@" = some ⟨"@I1@", "INDI", [⟨"NAME", "Second /B/"⟩]⟩ :=
  ⟨rfl,
    c5_last_record_wins [⟨"@I1@", "INDI", [⟨"NAME", "First /A/"⟩]⟩]
      [] ⟨"@I1@", "INDI", [⟨"NAME", "Second /B/"⟩]⟩ rfl (by intro e2 h; simp at h)⟩

theorem truthy_some {o : Option String} (h : truthy o = true) :
    o = some (o.getD "") := by
  cases o with
  | none => simp [truthy] at h
  | some s => rfl

theorem addNode_edges (g : Graph α) (x : α) : (g.addNode x).edges = g.edges := by
  unfold Graph.addNode
  split <;> rfl

theorem addEdge_edges (g : Graph α) (x y : α) :
    ∀ e ∈ (g.addEdge x y).edges, e ∈ g.edges ∨ e = (x, y) := by
  intro e he
  unfold Graph.addEdge at he
  split at he
  · rw [addNode_edges, addNode_edges] at he
    exact Or.inl he
  · simp only [addNode_edges] at he
    rcases List.mem_append.mp he with h | h
    · exact Or.inl h
    · exact Or.inr (List.mem_singleton.mp h)

theorem foldl_addNode_edges (l : List Elem) :
    ∀ g : Graph String, (l.foldl (fun g e => g.addNode e.pointer) g).edges = g.edges := by
  induction l with
  | nil => intro g; rfl
  | cons x t ih =>
    intro g
    rw [List.foldl_cons, ih, addNode_edges]

theorem foldl_addEdge_children (par : String) :
    ∀ (cs : List String) (g : Graph String),
      ∀ e ∈ (cs.foldl (fun h c => h.addEdge par c) g).edges,
        e ∈ g.edges ∨ ∃ c ∈ cs, e = (par, c) := by
  intro cs
  induction cs with
  | nil => intro g e he; exact Or.inl he
  | cons c t ih =>
    intro g e he
    rw [List.foldl_cons] at he
    rcases ih (g.addEdge par c) e he with h | ⟨c', hc', rfl⟩
    · rcases addEdge_edges g par c e h with h' | rfl
      · exact Or.inl h'
      · exact Or.inr ⟨c, by simp, rfl⟩
    · exact Or.inr ⟨c', List.mem_cons_of_mem c hc', rfl⟩

theorem add_fam_edges_sub (g : Graph String) (f : Elem) :
    ∀ e ∈ (add_fam_edges g f).edges, e ∈ g.edges ∨
      ((truthy (fam_husb_wife_children f).1 = true ∧
          truthy (fam_husb_wife_children f).2.1 = true ∧
          (fam_husb_wife_children f).1 = some e.1 ∧
          (fam_husb_wife_children f).2.1 = some e.2) ∨
        (truthy (fam_husb_wife_children f).1 = true ∧
          (fam_husb_wife_children f).1 = some e.1 ∧
          e.2 ∈ (fam_husb_wife_children f).2.2) ∨
        (truthy (fam_husb_wife_children f).2.1 = true ∧
          (fam_husb_wife_children f).2.1 = some e.1 ∧
          e.2 ∈ (fam_husb_wife_children f).2.2)) := by
  intro e he
  unfold add_fam_edges at he
  set hwc := fam_husb_wife_children f with hhwc
  simp only at he
  have step3 :
      ∀ g2 : Graph String, e ∈ (if truthy hwc.2.1 = true then
          hwc.2.2.foldl (fun h c => h.addEdge (hwc.2.1.getD "") c) g2 else g2).edges →
        e ∈ g2.edges ∨
          (truthy hwc.2.1 = true ∧ hwc.2.1 = some e.1 ∧ e.2 ∈ hwc.2.2) := by
    intro g2 h2
    split at h2
    · rcases foldl_addEdge_children (hwc.2.1.getD "") hwc.2.2 g2 e h2 with h | ⟨c, hc, rfl⟩
      · exact Or.inl h
      · right
        exact ⟨by assumption, truthy_some (by assumption), hc⟩
    · exact Or.inl h2
  have step2 :
      ∀ g1 : Graph String, e ∈ (if truthy hwc.1 = true then
          hwc.2.2.foldl (fun h c => h.addEdge (hwc.1.getD "") c) g1 else g1).edges →
        e ∈ g1.edges ∨
          (truthy hwc.1 = true ∧ hwc.1 = some e.1 ∧ e.2 ∈ hwc.2.2) := by
    intro g1 h1
    split at h1
    · rcases foldl_addEdge_children (hwc.1.getD "") hwc.2.2 g1 e h1 with h | ⟨c, hc, rfl⟩
      · exact Or.inl h
      · right
        exact ⟨by assumption, truthy_some (by assumption), hc⟩
    · exact Or.inl h1
  rcases step3 _ he with h2 | hwife
  · rcases step2 _ h2 with h1 | hhusb
    · split at h1
      · rcases addEdge_edges g (hwc.1.getD "") (hwc.2.1.getD "") e h1 with h | rfl
        · exact Or.inl h
        · right; left
          have hb : (truthy hwc.1 && truthy hwc.2.1) = true := by assumption
          have hb2 : truthy hwc.1 = true ∧ truthy hwc.2.1 = true := by simpa using hb
          exact ⟨hb2.1, hb2.2, truthy_some hb2.1, truthy_some hb2.2⟩
      · exact Or.inl h1
    · exact Or.inr (Or.inr (Or.inl hhusb))
  · exact Or.inr (Or.inr (Or.inr hwife))

theorem foldl_fam_cooccur (recs : List Elem) :
    ∀ (l : List Elem) (g : Graph String),
      (∀ f ∈ l, f ∈ recs ∧ f.tag = "FAM") →
      (∀ e ∈ g.edges, FamCooccur recs e.1 e.2) →
      ∀ e ∈ (l.foldl add_fam_edges g).edges, FamCooccur recs e.1 e.2 := by
  intro l
  induction l with
  | nil => intro g _ hg; exact hg
  | cons f t ih =>
    intro g hl hg e he
    rw [List.foldl_cons] at he
    refine ih (add_fam_edges g f) (fun f' hf' => hl f' (List.mem_cons_of_mem f hf')) ?_ e he
    intro e' he'
    rcases add_fam_edges_sub g f e' he' with h | hd
    · exact hg e' h
    · exact ⟨f, (hl f (by simp)).1, (hl f (by simp)).2, hd⟩

theorem build_graph_edges_cooccur (recs : List Elem) :
    ∀ e ∈ (build_graph recs).1.edges, FamCooccur recs e.1 e.2 := by
  intro e he
  unfold build_graph at he
  simp only at he
  refine foldl_fam_cooccur recs _ _ ?_ ?_ e he
  · intro f hf
    rw [List.mem_filter] at hf
    exact ⟨hf.1, by simpa using hf.2⟩
  · intro e' he'
    rw [foldl_addNode_edges] at he'
    simp at he'

theorem fg_link_mem_iff (g : FG) (a b x y : String) :
    y ∈ (fg_link g a b).adj x ↔
      y ∈ g.adj x ∨ (x = a ∧ y = b) ∨ (x = b ∧ y = a) := by
  unfold fg_link fg_add
  simp only
  split_ifs with h1 h2 h3 h4 h5 <;>
    simp_all [List.mem_insert_iff] <;> tauto

theorem fg_link_keys (g : FG) (a b : String) : (fg_link g a b).keys = g.keys := rfl

theorem famlinked_symm {recs : List Elem} {x y : String}
    (h : FamLinked recs x y) : FamLinked recs y x := by
  rcases h with ⟨famid, fam, hfam, hd⟩
  exact ⟨famid, fam, hfam, by tauto⟩

theorem foldl_pres {β : Type} (P : FG → Prop) (f : FG → β → FG) :
    ∀ (l : List β) (g : FG), P g →
      (∀ g' x, x ∈ l → P g' → P (f g' x)) → P (l.foldl f g) := by
  intro l
  induction l with
  | nil => intro g hg _; exact hg
  | cons x t ih =>
    intro g hg hstep
    exact ih (f g x) (hstep g x (by simp) hg)
      (fun g' z hz => hstep g' z (List.mem_cons_of_mem x hz))

theorem fg_link_pres (recs : List Elem) (g : FG) (a b : String)
    (hA : g.keys = indi_keys recs)
    (hB : ∀ x y, y ∈ g.adj x →
      x ∈ indi_keys recs ∧ y ∈ indi_keys recs ∧ FamLinked recs x y)
    (hC : ∀ x y, y ∈ g.adj x ↔ x ∈ g.adj y)
    (hga : a ∈ indi_keys recs) (hgb : b ∈ indi_keys recs)
    (hfl : FamLinked recs a b) :
    (fg_link g a b).keys = indi_keys recs ∧
      (∀ x y, y ∈ (fg_link g a b).adj x →
        x ∈ indi_keys recs ∧ y ∈ indi_keys recs ∧ FamLinked recs x y) ∧
      (∀ x y, y ∈ (fg_link g a b).adj x ↔ x ∈ (fg_link g a b).adj y) := by
  refine ⟨hA, ?_, ?_⟩
  · intro x y h
    rw [fg_link_mem_iff] at h
    rcases h with h | ⟨rfl, rfl⟩ | ⟨rfl, rfl⟩
    · exact hB x y h
    · exact ⟨hga, hgb, hfl⟩
    · exact ⟨hgb, hga, famlinked_symm hfl⟩
  · intro x y
    rw [fg_link_mem_iff, fg_link_mem_iff, hC x y]
    tauto

theorem subelem_eta (fc : SubElem) (t : String) (h : fc.tag = t) :
    (⟨t, fc.value⟩ : SubElem) = fc := by
  cases fc
  simp_all

theorem process_indi_pres (recs : List Elem) (iid : String)
    (hiid : iid ∈ indi_keys recs) (g : FG)
    (h : g.keys = indi_keys recs ∧
      (∀ x y, y ∈ g.adj x →
        x ∈ indi_keys recs ∧ y ∈ indi_keys recs ∧ FamLinked recs x y) ∧
      (∀ x y, y ∈ g.adj x ↔ x ∈ g.adj y)) :
    (process_indi recs g iid).keys = indi_keys recs ∧
      (∀ x y, y ∈ (process_indi recs g iid).adj x →
        x ∈ indi_keys recs ∧ y ∈ indi_keys recs ∧ FamLinked recs x y) ∧
      (∀ x y, y ∈ (process_indi recs g iid).adj x ↔ x ∈ (process_indi recs g iid).adj y) := by
  unfold process_indi
  split
  · exact h
  next elem hlook =>
    refine foldl_pres (fun gg => gg.keys = indi_keys recs ∧
      (∀ x y, y ∈ gg.adj x →
        x ∈ indi_keys recs ∧ y ∈ indi_keys recs ∧ FamLinked recs x y) ∧
      (∀ x y, y ∈ gg.adj x ↔ x ∈ gg.adj y)) _ elem.children g h ?_
    intro g' c hc hg'
    split
    next hfamc =>
      split
      next fam hfam =>
        refine foldl_pres (fun gg => gg.keys = indi_keys recs ∧
      (∀ x y, y ∈ gg.adj x →
        x ∈ indi_keys recs ∧ y ∈ indi_keys recs ∧ FamLinked recs x y) ∧
      (∀ x y, y ∈ gg.adj x ↔ x ∈ gg.adj y)) _ fam.children g' hg' ?_
        intro g2 fc hfc hg2
        split
        next h1 =>
          have ht : fc.tag = "HUSB" ∧ fc.value ∈ indi_keys recs := by simpa using h1
          refine fg_link_pres recs g2 iid fc.value hg2.1 hg2.2.1 hg2.2.2 hiid ht.2 ?_
          refine ⟨c.value, fam, hfam, Or.inl ⟨⟨elem, hlook, ?_⟩, Or.inl ?_⟩⟩
          · have := subelem_eta c "FAMC" hfamc
            rw [this]
            exact hc
          · rw [subelem_eta fc "HUSB" ht.1]
            exact hfc
        next h1 =>
          split
          next h2 =>
            have ht : fc.tag = "WIFE" ∧ fc.value ∈ indi_keys recs := by simpa using h2
            refine fg_link_pres recs g2 iid fc.value hg2.1 hg2.2.1 hg2.2.2 hiid ht.2 ?_
            refine ⟨c.value, fam, hfam, Or.inl ⟨⟨elem, hlook, ?_⟩, Or.inr ?_⟩⟩
            · have := subelem_eta c "FAMC" hfamc
              rw [this]
              exact hc
            · rw [subelem_eta fc "WIFE" ht.1]
              exact hfc
          next h2 => exact hg2
      next hfam => exact hg'
    next hfamc =>
      split
      next hfams =>
        split
        next fam hfam =>
          refine foldl_pres (fun gg => gg.keys = indi_keys recs ∧
      (∀ x y, y ∈ gg.adj x →
        x ∈ indi_keys recs ∧ y ∈ indi_keys recs ∧ FamLinked recs x y) ∧
      (∀ x y, y ∈ gg.adj x ↔ x ∈ gg.adj y)) _ fam.children g' hg' ?_
          intro g2 fc hfc hg2
          split
          next h1 =>
            have ht : fc.tag = "HUSB" ∧ fc.value ≠ iid ∧ fc.value ∈ indi_keys recs := by
              simpa [and_assoc] using h1
            refine fg_link_pres recs g2 iid fc.value hg2.1 hg2.2.1 hg2.2.2 hiid ht.2.2 ?_
            refine ⟨c.value, fam, hfam,
              Or.inr (Or.inl ⟨⟨elem, hlook, ?_⟩, Or.inl ?_, ht.2.1⟩)⟩
            · have := subelem_eta c "FAMS" hfams
              rw [this]
              exact hc
            · rw [subelem_eta fc "HUSB" ht.1]
              exact hfc
          next h1 =>
            split
            next h2 =>
              have ht : fc.tag = "WIFE" ∧ fc.value ≠ iid ∧ fc.value ∈ indi_keys recs := by
                simpa [and_assoc] using h2
              refine fg_link_pres recs g2 iid fc.value hg2.1 hg2.2.1 hg2.2.2 hiid ht.2.2 ?_
              refine ⟨c.value, fam, hfam,
                Or.inr (Or.inl ⟨⟨elem, hlook, ?_⟩, Or.inr ?_, ht.2.1⟩)⟩
              · have := subelem_eta c "FAMS" hfams
                rw [this]
                exact hc
              · rw [subelem_eta fc "WIFE" ht.1]
                exact hfc
            next h2 => exact hg2
        next hfam => exact hg'
      next hfams => exact hg'

theorem build_family_graph_inv (recs : List Elem) :
    (build_family_graph recs).keys = indi_keys recs ∧
      (∀ x y, y ∈ (build_family_graph recs).adj x →
        x ∈ indi_keys recs ∧ y ∈ indi_keys recs ∧ FamLinked recs x y) ∧
      (∀ x y, y ∈ (build_family_graph recs).adj x ↔
        x ∈ (build_family_graph recs).adj y) := by
  unfold build_family_graph
  refine foldl_pres
    (fun g => g.keys = indi_keys recs ∧
      (∀ x y, y ∈ g.adj x →
        x ∈ indi_keys recs ∧ y ∈ indi_keys recs ∧ FamLinked recs x y) ∧
      (∀ x y, y ∈ g.adj x ↔ x ∈ g.adj y))
    (process_indi recs) (indi_keys recs) _ ⟨rfl, ?_, ?_⟩ ?_
  · intro x y hy
    simp at hy
  · intro x y
    simp
  · intro g' x hx hg'
    exact process_indi_pres recs x hx g' hg'

/-- C4 amended: every edge of either graph builder links two identifiers that
co-occur in one family record.  For build_graph, every stored edge joins the
family's truthy husband-wife pair or a truthy parent and one of its children —
but the endpoints need not resolve to known individuals (networkx silently
creates their nodes).  For build_family_graph, every neighbour pair consists
of two known individual keys, one of which references a family of the family
index (by FAMC or FAMS) whose recorded HUSB or WIFE is the other; dangling
references contribute no edge, and construction is total. -/
theorem c4_edges_cooccur (recs : List Elem) :
    (∀ e ∈ (build_graph recs).1.edges, FamCooccur recs e.1 e.2) ∧
      (∀ x y, y ∈ (build_family_graph recs).adj x →
        x ∈ indi_keys recs ∧ y ∈ indi_keys recs ∧ FamLinked recs x y) :=
  ⟨build_graph_edges_cooccur recs, (build_family_graph_inv recs).2.1⟩

/-- C4 witness: the amended theorem applied to the end-to-end record set, on a
spouse edge of build_graph and a neighbour pair of build_family_graph. -/
theorem c4_edges_cooccur_witness :
    (("@I1@", "@I2@") ∈ (build_graph recsC8).1.edges ∧
        "@I2@" ∈ (build_family_graph recsC8).adj "@I1@") ∧
      FamCooccur recsC8 "@I1@" "@I2@" ∧
        ("@I1@" ∈ indi_keys recsC8 ∧ "@I2@" ∈ indi_keys recsC8 ∧
          FamLinked recsC8 "@I1@" "@I2@") :=
  ⟨⟨by decide, by decide⟩,
    (c4_edges_cooccur recsC8).1 ("@I1@", "@I2@") (by decide),
    (c4_edges_cooccur recsC8).2 "@I1@" "@I2@" (by decide)⟩

theorem calc_step_some (cur : String) :
    ∀ (ns : List String) (d : DistMap) (q : List String),
      (∀ n ∈ ns, n ∈ d.dom) → cur ∈ d.dom →
      ∃ d2 q2, calc_step d cur ns q = some (d2, q2) ∧ d2.dom = d.dom ∧
        ∀ n ∈ q2, n ∈ q ∨ n ∈ ns := by
  intro ns
  induction ns with
  | nil =>
    intro d q _ _
    exact ⟨d, q, rfl, rfl, fun n hn => Or.inl hn⟩
  | cons n ns ih =>
    intro d q hns hcur
    have hn : n ∈ d.dom := hns n (by simp)
    unfold calc_step
    split
    next heq => exact absurd heq (by simp [dm_get, hn])
    next dn heq =>
      split
      next hval =>
        split
        next heq2 => exact absurd heq2 (by simp [dm_get, hcur])
        next dc heq2 =>
          have hdomset : (dm_set d n (dc + 1)).dom = d.dom := by
            simp [dm_set, hn]
          obtain ⟨d2, q2, heq3, hdom2, hq2⟩ :=
            ih (dm_set d n (dc + 1)) (q ++ [n])
              (fun m hm => hdomset ▸ hns m (List.mem_cons_of_mem n hm))
              (hdomset ▸ hcur)
          refine ⟨d2, q2, heq3, hdom2.trans hdomset, ?_⟩
          intro m hm
          rcases hq2 m hm with h | h
          · rcases List.mem_append.mp h with h' | h'
            · exact Or.inl h'
            · exact Or.inr (by simp [List.mem_singleton.mp h'])
          · exact Or.inr (List.mem_cons_of_mem n h)
      next hval =>
        obtain ⟨d2, q2, heq3, hdom2, hq2⟩ :=
          ih d q (fun m hm => hns m (List.mem_cons_of_mem n hm)) hcur
        refine ⟨d2, q2, heq3, hdom2, ?_⟩
        intro m hm
        rcases hq2 m hm with h | h
        · exact Or.inl h
        · exact Or.inr (List.mem_cons_of_mem n h)

theorem calc_loop_ne_none (g : FG)
    (hclosed : ∀ x y, y ∈ g.adj x → y ∈ g.keys) :
    ∀ (fuel : Nat) (q : List String) (d : DistMap),
      (∀ x ∈ q, x ∈ g.keys) → (∀ k ∈ g.keys, k ∈ d.dom) →
      calc_loop g fuel q d ≠ none := by
  intro fuel
  induction fuel with
  | zero => intro q d _ _; simp [calc_loop]
  | succ fuel ih =>
    intro q d hq hdom
    cases q with
    | nil => simp [calc_loop]
    | cons cur rest =>
      unfold calc_loop
      have hcur : cur ∈ g.keys := hq cur (by simp)
      split
      next heq => exact absurd heq (by simp [fg_get, hcur])
      next ns heq =>
        have hns : ns = g.adj cur := by
          have : fg_get g cur = some (g.adj cur) := if_pos hcur
          rw [this] at heq
          exact (Option.some_injective _ heq).symm
        subst hns
        obtain ⟨d2, q2, heq3, hdom2, hq2⟩ :=
          calc_step_some cur (g.adj cur) d rest
            (fun n hn => hdom n (hclosed cur n hn)) (hdom cur hcur)
        split
        next heq4 => exact absurd heq3 (by rw [heq4]; simp)
        next d3 q3 heq4 =>
          rw [heq3] at heq4
          obtain ⟨rfl, rfl⟩ : d3 = d2 ∧ q3 = q2 := by
            have := Option.some_injective _ heq4
            exact ⟨congrArg Prod.fst this.symm, congrArg Prod.snd this.symm⟩
          refine ih q3 d3 ?_ ?_
          · intro x hx
            rcases hq2 x hx with h | h
            · exact hq x (List.mem_cons_of_mem cur h)
            · exact hclosed cur x h
          · intro k hk
            rw [hdom2]
            exact hdom k hk

theorem calculate_distances_ne_none (g : FG)
    (hclosed : ∀ x y, y ∈ g.adj x → y ∈ g.keys)
    (start : String) (hstart : start ∈ g.keys) (fuel : Nat) :
    calculate_distances g start fuel ≠ none := by
  unfold calculate_distances
  refine calc_loop_ne_none g hclosed fuel [start] _ ?_ ?_
  · intro x hx
    rw [List.mem_singleton.mp hx]
    exact hstart
  · intro k hk
    simp [dm_set, hstart, hk]

theorem fp_step_sub :
    ∀ (ns visited : List String) (queue : List (String × List String))
      (path : List String),
      ∀ pq ∈ (fp_step visited queue path ns).2, pq ∈ queue ∨ pq.1 ∈ ns := by
  intro ns
  induction ns with
  | nil => intro visited queue path pq h; exact Or.inl h
  | cons n ns ih =>
    intro visited queue path pq h
    unfold fp_step at h
    by_cases hv : n ∈ visited
    · rw [if_pos hv] at h
      rcases ih visited queue path pq h with h' | h'
      · exact Or.inl h'
      · exact Or.inr (List.mem_cons_of_mem n h')
    · rw [if_neg hv] at h
      rcases ih (visited ++ [n]) (queue ++ [(n, path ++ [n])]) path pq h with h' | h'
      · rcases List.mem_append.mp h' with h'' | h''
        · exact Or.inl h''
        · right
          rw [List.mem_singleton.mp h'']
          simp
      · exact Or.inr (List.mem_cons_of_mem n h')

theorem find_path_loop_ne_none (g : FG) (endn : String)
    (hclosed : ∀ x y, y ∈ g.adj x → y ∈ g.keys) :
    ∀ (fuel : Nat) (queue : List (String × List String)) (visited : List String),
      (∀ pq ∈ queue, pq.1 ∈ g.keys) →
      find_path_loop g endn fuel queue visited ≠ none := by
  intro fuel
  induction fuel with
  | zero => intro queue visited _; simp [find_path_loop]
  | succ fuel ih =>
    intro queue visited hq
    cases queue with
    | nil => simp [find_path_loop]
    | cons pq rest =>
      obtain ⟨cur, path⟩ := pq
      unfold find_path_loop
      by_cases hend : cur = endn
      · rw [if_pos hend]
        simp
      · rw [if_neg hend]
        have hcur : cur ∈ g.keys := hq (cur, path) (by simp)
        split
        next heq => exact absurd heq (by simp [fg_get, hcur])
        next ns heq =>
          have hns : ns = g.adj cur := by
            have : fg_get g cur = some (g.adj cur) := if_pos hcur
            rw [this] at heq
            exact (Option.some_injective _ heq).symm
          subst hns
          refine ih _ _ ?_
          intro pq' hpq'
          rcases fp_step_sub (g.adj cur) visited rest path pq' hpq' with h | h
          · exact hq pq' (List.mem_cons_of_mem _ h)
          · exact hclosed cur pq'.1 h

theorem find_path_ne_none (g : FG)
    (hclosed : ∀ x y, y ∈ g.adj x → y ∈ g.keys)
    (s e : String) (hs : s ∈ g.keys) (fuel : Nat) :
    find_path g s e fuel ≠ none := by
  unfold find_path
  refine find_path_loop_ne_none g e hclosed fuel [(s, [s])] [s] ?_
  intro pq hpq
  rw [List.mem_singleton.mp hpq]
  exact hs

/-- C10: the adjacency dict built by build_family_graph is closed and
symmetric — every neighbour of any node is itself a key, and neighbourhood is
mutual — and in consequence the breadth-first traversals calculate_distances
and find_path started from a key never hit a missing dict key (the `none`
outcome that models a KeyError). -/
theorem c10_fg_closure (recs : List Elem) :
    (∀ x y, y ∈ (build_family_graph recs).adj x →
        x ∈ (build_family_graph recs).keys ∧ y ∈ (build_family_graph recs).keys) ∧
      (∀ x y, y ∈ (build_family_graph recs).adj x ↔
        x ∈ (build_family_graph recs).adj y) ∧
      (∀ start fuel, start ∈ (build_family_graph recs).keys →
        calculate_distances (build_family_graph recs) start fuel ≠ none) ∧
      (∀ s e fuel, s ∈ (build_family_graph recs).keys →
        find_path (build_family_graph recs) s e fuel ≠ none) := by
  obtain ⟨hkeys, hB, hC⟩ := build_family_graph_inv recs
  have hclosed : ∀ x y, y ∈ (build_family_graph recs).adj x →
      y ∈ (build_family_graph recs).keys := by
    intro x y h
    rw [hkeys]
    exact (hB x y h).2.1
  refine ⟨?_, hC, ?_, ?_⟩
  · intro x y h
    rw [hkeys]
    exact ⟨(hB x y h).1, (hB x y h).2.1⟩
  · intro start fuel hstart
    exact calculate_distances_ne_none _ hclosed start hstart fuel
  · intro s e fuel hs
    exact find_path_ne_none _ hclosed s e hs fuel

/-- C10 witness: the closure theorem applied to the concrete two-person
family, with the traversals started from a key. -/
theorem c10_fg_closure_witness :
    ("@I2@" ∈ (build_family_graph recsC10).adj "@I1@" ∧
        "@I1@" ∈ (build_family_graph recsC10).keys) ∧
      ("@I1@" ∈ (build_family_graph recsC10).keys ∧
          "@I2@" ∈ (build_family_graph recsC10).keys) ∧
        calculate_distances (build_family_graph recsC10) "@I1@" 5 ≠ none ∧
          find_path (build_family_graph recsC10) "@I1@" "@I2@" 5 ≠ none :=
  ⟨⟨by decide, by decide⟩,
    (c10_fg_closure recsC10).1 "@I1@" "@I2@" (by decide),
    (c10_fg_closure recsC10).2.2.1 "@I1@" 5 (by decide),
    (c10_fg_closure recsC10).2.2.2 "@I1@" "@I2@" 5 (by decide)⟩

end HFT
